import Mathlib

/-!
Verification of the streaming N-Quads parser core of the `toronto-events`
repository (`src/toronto_events/core/nquads_parser.py`).

The Python source is shallowly embedded below: Python strings are modelled as
`List Char` (wrapped into `String` at the API boundary), Python's `None`-or-value
results as `Option`, and the parser's mutable statistics dictionary as an
explicit `Stats` record threaded through a fold over the input lines.
All functions are executable and structurally recursive.
-/

namespace NQuads

/-- The ASCII whitespace characters recognised by Python's `str.strip` /
`str.split` (` \t\n\r\x0b\x0c`). -/
def isPySpace (c : Char) : Bool :=
  c = ' ' || c = '\t' || c = '\n' || c = '\r' || c = '\x0b' || c = '\x0c'

/-- Python `str.strip()`: remove leading and trailing whitespace. -/
def stripPy (cs : List Char) : List Char :=
  ((cs.dropWhile isPySpace).reverse.dropWhile isPySpace).reverse

/-- Python `str.rstrip('.')`: remove trailing `'.'` characters. -/
def rstripDots (cs : List Char) : List Char :=
  (cs.reverse.dropWhile (· = '.')).reverse

/-- Python `str.rstrip()`: remove trailing whitespace. -/
def rstripWs (cs : List Char) : List Char :=
  (cs.reverse.dropWhile isPySpace).reverse

/-- `str.startswith(c)` for a single character. -/
def startsWithC (c : Char) : List Char → Bool
  | [] => false
  | a :: _ => a = c

/-- `str.endswith(c)` for a single character. -/
def endsWithC (c : Char) (cs : List Char) : Bool :=
  startsWithC c cs.reverse

/-- `line.endswith(' .')`. -/
def endsWithSpaceDot (cs : List Char) : Bool :=
  match cs.reverse with
  | '.' :: ' ' :: _ => true
  | _ => false

/-- Python `s[-10:]`: the final (at most) ten characters. -/
def last10 (cs : List Char) : List Char :=
  cs.drop (cs.length - 10)

/-- Python `term.rfind('"')`: index of the last `'"'`, `none` when absent
(Python returns `-1`). -/
def rfindQuote : List Char → Option Nat
  | [] => none
  | c :: rest =>
    match rfindQuote rest with
    | some i => some (i + 1)
    | none => if c = '"' then some 0 else none

/-- Python `s.rfind(pat)` for a non-empty pattern: start index of the last
occurrence of `pat` as a substring, `none` when absent. -/
def rfindSub (pat : List Char) : List Char → Option Nat
  | [] => none
  | c :: rest =>
    match rfindSub pat rest with
    | some i => some (i + 1)
    | none => if pat.isPrefixOf (c :: rest) then some 0 else none

/-- Python `pat in s` (substring containment). -/
def containsSub (pat : List Char) : List Char → Bool
  | [] => pat.isEmpty
  | c :: rest => pat.isPrefixOf (c :: rest) || containsSub pat rest

/-- Fuel-indexed worker for `replaceSub`; the fuel starts at the list length,
which always suffices, and keeps the recursion structural. -/
def replaceSubFuel (pat rep : List Char) : Nat → List Char → List Char
  | _, [] => []
  | 0, c :: rest => c :: rest
  | fuel + 1, c :: rest =>
    if pat ≠ [] && pat.isPrefixOf (c :: rest) then
      rep ++ replaceSubFuel pat rep fuel (rest.drop (pat.length - 1))
    else
      c :: replaceSubFuel pat rep fuel rest

/-- Python `s.replace(pat, rep)` for a non-empty `pat`: replace every
non-overlapping occurrence, scanning left to right. -/
def replaceSub (pat rep cs : List Char) : List Char :=
  replaceSubFuel pat rep cs.length cs

/-- The literal-body un-escaping chain of `parse_term` (nquads_parser.py line 89):
`value.replace('\\"', '"').replace('\\n', '\n').replace('\\t', '\t')`.
Note: there is no `\\\\` → `\\` replacement in the source. -/
def unescape (cs : List Char) : List Char :=
  replaceSub ['\\', 't'] ['\t']
    (replaceSub ['\\', 'n'] ['\n']
      (replaceSub ['\\', '"'] ['"'] cs))

/-- Python `s.rsplit(None, 1)`: split off the last whitespace-separated token.
Returns `[]` for an all-whitespace string, `[s]` when there is no internal
whitespace, and `[left, token]` otherwise. -/
def rsplit1 (cs : List Char) : List (List Char) :=
  let r := (rstripWs cs).reverse
  if r.isEmpty then []
  else
    let tokR := r.takeWhile (fun c => !isPySpace c)
    let afterTok := (r.drop tokR.length).dropWhile isPySpace
    if afterTok.isEmpty then [tokR.reverse]
    else [afterTok.reverse, tokR.reverse]

/-- Python `s.split(None, 1)`: split off the first whitespace-separated token.
Returns `[]` for an all-whitespace string, `[tok]` when nothing follows the
first token, and `[tok, remainder]` otherwise. -/
def lsplit1 (cs : List Char) : List (List Char) :=
  let l := cs.dropWhile isPySpace
  if l.isEmpty then []
  else
    let tok := l.takeWhile (fun c => !isPySpace c)
    let afterTok := (l.drop tok.length).dropWhile isPySpace
    if afterTok.isEmpty then [tok]
    else [tok, afterTok]

/-- `str.startswith(ab)` for a two-character pattern, testing one character at
a time so the test reduces as soon as the head is known. -/
def startsWith2 (a b : Char) : List Char → Bool
  | [] => false
  | x :: xs => (x = a) && startsWithC b xs

/-- `str.startswith(abc)` for a three-character pattern. -/
def startsWith3 (a b c : Char) : List Char → Bool
  | [] => false
  | x :: xs => (x = a) && startsWith2 b c xs

/-- `parse_term` (nquads_parser.py lines 62-106) on character lists.
Returns `(value, term_type, datatype_or_lang)` exactly as the Python function
does; the `unknown` classification is an in-band value, not a failure. -/
def parse_term_core (t0 : List Char) : List Char × String × Option (List Char) :=
  let t := stripPy t0
  if startsWithC '<' t && endsWithC '>' t then
    -- IRI: `term[1:-1]`
    ((t.drop 1).dropLast, "iri", none)
  else if startsWith2 '_' ':' t then
    -- Blank node: `term[2:]`
    (t.drop 2, "blank", none)
  else if startsWithC '"' t then
    -- Literal: `value_end = term.rfind('"'); if value_end <= 0: value_end = len(term)`
    let valueEnd : Nat :=
      match rfindQuote t with
      | some i => if i = 0 then t.length else i
      | none => t.length
    let value := unescape ((t.take valueEnd).drop 1)
    let suffix := t.drop (valueEnd + 1)
    if startsWith3 '^' '^' '<' suffix then
      -- `datatype = suffix[3:-1]`
      (value, "literal", some ((suffix.drop 3).dropLast))
    else if startsWithC '@' suffix then
      -- `return value, 'literal', f'@{lang}'` with `lang = suffix[1:]`
      (value, "literal", some ('@' :: suffix.drop 1))
    else
      (value, "literal", none)
  else
    (t, "unknown", none)

/-- `parse_term` on `String`s. -/
def parse_term (t : String) : String × String × Option String :=
  let r := parse_term_core t.toList
  (String.mk r.1, r.2.1, r.2.2.map String.mk)

/-- The `Quad` dataclass (nquads_parser.py lines 109-136). -/
structure Quad where
  subject : String
  subject_type : String
  predicate : String
  object_value : String
  object_type : String
  object_datatype : Option String
  graph : String
deriving DecidableEq, Repr

/-- A character in `urllib.parse.scheme_chars` (letters, digits, `+`, `-`, `.`). -/
def isSchemeChar (c : Char) : Bool :=
  c.isAlphanum || c = '+' || c = '-' || c = '.'

/-- Split a character list at its first `':'` (prefix before, remainder after). -/
def splitAtColon : List Char → Option (List Char × List Char)
  | [] => none
  | ':' :: rest => some ([], rest)
  | c :: rest => (splitAtColon rest).map (fun p => (c :: p.1, p.2))

/-- A valid URL scheme per `urllib.parse`: nonempty, starts with a letter,
the rest drawn from the scheme characters. -/
def validScheme (cs : List Char) : Bool :=
  match cs with
  | [] => false
  | c :: rest => c.isAlpha && rest.all isSchemeChar

/-- Model of the Python standard library's `urllib.parse.urlparse(url).netloc`
for the URL shapes occurring here: strip a leading valid `scheme:`, then, if
the remainder starts with `//`, take everything up to the next `/`, `?` or `#`;
otherwise the netloc is empty. -/
def netlocChars (cs : List Char) : List Char :=
  let afterScheme :=
    match splitAtColon cs with
    | some (pre, post) => if validScheme pre then post else cs
    | none => cs
  match afterScheme with
  | '/' :: '/' :: rest =>
    rest.takeWhile (fun c => !(c = '/' || c = '?' || c = '#'))
  | _ => []

/-- `Quad.domain` (nquads_parser.py lines 129-136): the lower-cased network
authority of the graph URL (`urlparse(self.graph).netloc.lower()`). -/
def Quad.domain (q : Quad) : String :=
  String.mk ((netlocChars q.graph.toList).map Char.toLower)

/-- Result of `NQuadsParser.parse_line`: `skip` is the `None` returned for
blank/comment lines (no counter change), `err` is the `None` returned on a
parse failure (`parse_errors` incremented by the caller side of the embedding),
`ok` carries the constructed `Quad`. -/
inductive PLResult where
  | skip
  | err
  | ok (q : Quad)
deriving DecidableEq, Repr

/-- The backward scan for a literal's opening quote
(nquads_parser.py lines 200-205 and 245-251): starting at index `bound - 1`
and going down to `0`, return the first index `i` with `rest[i] == '"'`,
`rest[i-1] != '\\'` and `rest[i-1]` a space or tab (both vacuous at `i = 0`). -/
def scanOpenQuote (rest : List Char) : Nat → Option Nat
  | 0 => none
  | n + 1 =>
    if (rest.getD n ' ' = '"' && (n = 0 || rest.getD (n - 1) ' ' ≠ '\\'))
        && (n = 0 || (rest.getD (n - 1) ' ' = ' ' || rest.getD (n - 1) ' ' = '\t')) then
      some n
    else
      scanOpenQuote rest n

/-- The object-boundary detection of `NQuadsParser.parse_line`
(nquads_parser.py lines 191-265). Given `rest` (the line with the terminator
and the graph field removed), returns `some (object_part, new_rest)` or `none`
on the paths that increment `parse_errors`. -/
def findObject (rest : List Char) : Option (List Char × List Char) :=
  if endsWithC '>' rest && containsSub ['^', '^', '<'] rest then
    -- typed literal object
    match rfindSub ['^', '^', '<'] rest with
    | none => none
    | some dtStart =>
      if dtStart = 0 then
        -- `quote_end = -1` fails the `quote_end >= 0` guard
        none
      else
        let quoteEnd := dtStart - 1
        if rest.getD quoteEnd ' ' = '"' then
          match scanOpenQuote rest quoteEnd with
          | some qs => some (rest.drop qs, stripPy (rest.take qs))
          | none => none
        else
          none
  else if endsWithC '>' rest then
    -- IRI object: `obj_start = rest.rfind(' <')`, falling back to `rest.rfind('\t<')`
    match
      (match rfindSub [' ', '<'] rest with
       | some i => some i
       | none => rfindSub ['\t', '<'] rest) with
    | some i => some (rest.drop (i + 1), stripPy (rest.take i))
    | none =>
      -- `obj_start = -1`: `rest[0:]` and `rest[:-1].strip()`
      some (rest, stripPy rest.dropLast)
  else if endsWithC '"' rest || startsWithC '@' (last10 rest) then
    -- untyped or language-tagged literal object
    let restBefore :=
      if containsSub ['^', '^', '<'] rest then
        match rfindSub ['^', '^', '<'] rest with
        | some i => rest.take i
        | none => rest
      else rest
    let quoteEnd : Int :=
      if endsWithC '"' restBefore then
        (restBefore.length : Int) - 1
      else if containsSub ['@'] (last10 restBefore) then
        -- `rest_before = rest_before[:at_pos]; quote_end = len(rest_before) - 1`
        match rfindSub ['@'] restBefore with
        | some i => (i : Int) - 1
        | none => -1
      else
        match rfindSub ['"'] restBefore with
        | some i => (i : Int)
        | none => -1
    match scanOpenQuote rest quoteEnd.toNat with
    | some qs => some (rest.drop qs, stripPy (rest.take qs))
    | none => none
  else
    -- blank-node object: `rest.rsplit(None, 1)`
    match rsplit1 rest with
    | [a, b] => some (b, a)
    | _ => none

/-- `NQuadsParser.parse_line` (nquads_parser.py lines 158-296) on character
lists. The `try/except` in the source is unreachable for the embedded
operations (all are total), so failures are exactly the explicit
`parse_errors` paths. -/
def plCore (cs0 : List Char) : PLResult :=
  let cs := stripPy cs0
  if cs.isEmpty || startsWithC '#' cs then
    .skip
  else
    -- step 1: strip the trailing terminator (no failure path in the source)
    let body :=
      if endsWithSpaceDot cs then
        cs.take (cs.length - 2)
      else
        rstripWs (rstripDots cs)
    -- step 2: the graph is everything after the last `' <'`
    match rfindSub [' ', '<'] body with
    | none => .err
    | some lis =>
      let graph_part := body.drop (lis + 1)
      let rest := stripPy (body.take lis)
      match findObject rest with
      | none => .err
      | some (object_part, rest2) =>
        -- step 4: `rest.split(None, 1)` must give exactly two tokens
        match lsplit1 rest2 with
        | [subject_part, predicate_part] =>
          let s := parse_term_core subject_part
          let p := parse_term_core predicate_part
          let o := parse_term_core object_part
          let g := parse_term_core graph_part
          .ok
            { subject := String.mk s.1
              subject_type := s.2.1
              predicate := String.mk p.1
              object_value := String.mk o.1
              object_type := o.2.1
              object_datatype := o.2.2.map String.mk
              graph := String.mk g.1 }
        | _ => .err

/-- `NQuadsParser.parse_line` on `String`s. -/
def parse_line (line : String) : PLResult :=
  plCore line.toList

/-- The `self.stats` counters of `NQuadsParser` (nquads_parser.py lines 151-156). -/
structure Stats where
  lines_read : Nat
  quads_parsed : Nat
  parse_errors : Nat
  domain_filtered : Nat
deriving DecidableEq, Repr

/-- The counters as initialised by `NQuadsParser.__init__`. -/
def initStats : Stats := ⟨0, 0, 0, 0⟩

/-- Componentwise sum of two counter snapshots. -/
def statsAdd (a b : Stats) : Stats :=
  ⟨a.lines_read + b.lines_read, a.quads_parsed + b.quads_parsed,
   a.parse_errors + b.parse_errors, a.domain_filtered + b.domain_filtered⟩

/-- `self.stats['lines_read'] += 1`. -/
def bumpLines (s : Stats) : Stats :=
  ⟨s.lines_read + 1, s.quads_parsed, s.parse_errors, s.domain_filtered⟩

/-- `self.stats['quads_parsed'] += 1`. -/
def bumpQuads (s : Stats) : Stats :=
  ⟨s.lines_read, s.quads_parsed + 1, s.parse_errors, s.domain_filtered⟩

/-- `self.stats['parse_errors'] += 1`. -/
def bumpErrors (s : Stats) : Stats :=
  ⟨s.lines_read, s.quads_parsed, s.parse_errors + 1, s.domain_filtered⟩

/-- `self.stats['domain_filtered'] += 1`. -/
def bumpFiltered (s : Stats) : Stats :=
  ⟨s.lines_read, s.quads_parsed, s.parse_errors, s.domain_filtered + 1⟩

/-- Python truthiness of `self.allowed_domains` (`if self.allowed_domains:`):
`None` and the empty set are both falsy. The set is modelled as a list of
strings; only membership is used. -/
def adTruthy : Option (List String) → Bool
  | none => false
  | some l => !l.isEmpty

/-- `domain.replace('www.', '')` (nquads_parser.py line 345): every occurrence
of the substring `www.` is removed, not only a leading one. -/
def wwwRemoved (d : String) : String :=
  String.mk (replaceSub ['w', 'w', 'w', '.'] [] d.toList)

/-- The loop body of `NQuadsParser.stream_file` (nquads_parser.py lines
333-351) for one physical line: updates the counters and returns the quad to
be yielded, if any. -/
def streamStep (ad : Option (List String)) (st : Stats) (line : String) :
    Stats × Option Quad :=
  let st1 := bumpLines st
  match parse_line line with
  | .skip => (st1, none)
  | .err => (bumpErrors st1, none)
  | .ok q =>
    if adTruthy ad then
      let doms := ad.getD []
      if q.domain ∈ doms then (bumpQuads st1, some q)
      else if wwwRemoved q.domain ∈ doms then (bumpQuads st1, some q)
      else (bumpFiltered st1, none)
    else (bumpQuads st1, some q)

/-- `NQuadsParser.stream_file` over the list of physical lines of the file:
the final counters together with the list of yielded quads, starting from the
counters `st` already accumulated on the parser instance. -/
def stream_file (ad : Option (List String)) (st : Stats) :
    List String → Stats × List Quad
  | [] => (st, [])
  | l :: ls =>
    let r := streamStep ad st l
    let rec2 := stream_file ad r.1 ls
    (rec2.1, r.2.toList ++ rec2.2)

/-- The loop of `group_by_subject` (nquads_parser.py lines 358-382):
`cs` is `current_subject` (`None` initially), `cg` is `current_group`. -/
def gbsGo (cs : Option String) (cg : List Quad) : List Quad → List (List Quad)
  | [] => if cg.isEmpty then [] else [cg]
  | q :: rest =>
    if some q.subject ≠ cs then
      (if cg.isEmpty then [] else [cg]) ++ gbsGo (some q.subject) [q] rest
    else
      gbsGo cs (cg ++ [q]) rest

/-- `group_by_subject` (nquads_parser.py lines 358-382). -/
def group_by_subject (quads : List Quad) : List (List Quad) :=
  gbsGo none [] quads

/-- The subject of the first quad of a group (used to state boundary facts). -/
def headSubject (g : List Quad) : Option String :=
  g.head?.map Quad.subject

/-- The quad produced by a line, if any (used to state which quads are
"successfully parsed"). -/
def parsedQuad (line : String) : Option Quad :=
  match parse_line line with
  | .ok q => some q
  | _ => none

/-- Modelled from the spec's words (§4.3 / C1): the domain check "as-is and
with a leading `www.` stripped". Used only to compare the specified filter
with the implemented one. -/
def specStripLeadingWww (d : String) : String :=
  if List.isPrefixOf ['w', 'w', 'w', '.'] d.toList then String.mk (d.toList.drop 4)
  else d

/-! Concrete lines and quads used in the theorems below. -/

def dateLine : String :=
  "<http://s> <http://p> \"2024-01-01\"^^<http://www.w3.org/2001/XMLSchema#date> <http://g> ."

def dateQuad : Quad :=
  ⟨"http://s", "iri", "http://p", "2024-01-01", "literal",
   some "http://www.w3.org/2001/XMLSchema#date", "http://g"⟩

def missingGraphLine : String := "<http://s> <http://p> <http://o> ."

def plainLine : String := "<http://s> <http://p> <http://o> <http://g> ."

def noTermLine : String := "<http://s> <http://p> <http://o> <http://g>"

def plainQuad : Quad :=
  ⟨"http://s", "iri", "http://p", "http://o", "iri", none, "http://g"⟩

def unknownPredLine : String := "<http://s> p <http://o> <http://g> ."

def unknownPredQuad : Quad :=
  ⟨"http://s", "iri", "p", "http://o", "iri", none, "http://g"⟩

def unknownSubjLine : String := "s <http://p> <http://o> <http://g> ."

def unknownSubjQuad : Quad :=
  ⟨"s", "unknown", "http://p", "http://o", "iri", none, "http://g"⟩

def unknownGraphLine : String := "<http://s> <http://p> <http://o> <g ."

def unknownGraphQuad : Quad :=
  ⟨"http://s", "iri", "http://p", "http://o", "iri", none, "<g"⟩

def torontoLine : String :=
  "<http://s> <http://p> <http://o> <http://www.toronto.ca/events> ."

def torontoQuad : Quad :=
  ⟨"http://s", "iri", "http://p", "http://o", "iri", none,
   "http://www.toronto.ca/events"⟩

def exampleComLine : String :=
  "<http://s2> <http://p> <http://o> <http://example.com/x> ."

def doubleWwwLine : String :=
  "<http://s> <http://p> <http://o> <http://www.www.toronto.ca/> ."

def doubleWwwQuad : Quad :=
  ⟨"http://s", "iri", "http://p", "http://o", "iri", none,
   "http://www.www.toronto.ca/"⟩

/-- A quad with the given subject and object value (fixed other fields),
for the Subject Grouper examples. -/
def subjQuad (s v : String) : Quad :=
  ⟨s, "iri", "http://p", v, "iri", none, "http://g"⟩

/-- The subject sequence `[A, A, B, B, B, A]` of §8. -/
def sixQuads : List Quad :=
  [subjQuad "A" "1", subjQuad "A" "2", subjQuad "B" "3",
   subjQuad "B" "4", subjQuad "B" "5", subjQuad "A" "6"]

end NQuads

namespace NQuads

/-! ## Claim theorems -/

/-- C3: the line
`<http://s> <http://p> "2024-01-01"^^<http://www.w3.org/2001/XMLSchema#date> <http://g> .`
parses to a Quad whose object term is a literal with value `2024-01-01` and
datatype `http://www.w3.org/2001/XMLSchema#date` (no language tag, which the
source encodes as an `@`-prefixed datatype field), subject IRI `http://s`,
predicate IRI `http://p`, graph IRI `http://g`. -/
theorem parse_line_typed_date_literal :
    parse_line dateLine = .ok dateQuad ∧
    dateQuad.object_datatype = some "http://www.w3.org/2001/XMLSchema#date" ∧
    startsWithC '@' "http://www.w3.org/2001/XMLSchema#date".toList = false := by
  refine ⟨by decide, by decide, by decide⟩

/-- C4: the line `<http://s> <http://p> <http://o> .` (missing the graph
field) fails structurally: `parse_errors` increments by exactly 1, no quad is
yielded for it, and iteration continues with the next line (the embedding is
total, so no exception can propagate). -/
theorem missing_graph_line_fails :
    parse_line missingGraphLine = .err ∧
    stream_file none initStats [missingGraphLine, plainLine] =
      (⟨2, 1, 1, 0⟩, [plainQuad]) := by
  constructor
  · decide
  · decide

/-- C2 counterexample: the Term Decoder classifies the isolated predicate
token `p` of the line `<http://s> p <http://o> <http://g> .` as `unknown`,
yet `parse_line` still produces a Quad for that line (with the raw token as
its predicate), contradicting the claim that any unknown classification makes
the whole line a parse failure. -/
theorem unknown_term_still_yields_quad_cex :
    (parse_term "p").2.1 = "unknown" ∧
    parse_line unknownPredLine = .ok unknownPredQuad := by
  constructor
  · decide
  · decide

/-- C2 amended: the Line Tokenizer never consults the Term Decoder's
classification; a token classified `unknown` flows verbatim into the produced
Quad. A produced Quad may therefore have a predicate that is not an IRI, a
subject of kind `unknown`, or a graph that is not an IRI. -/
theorem unknown_terms_flow_into_quads :
    parse_line unknownPredLine = .ok unknownPredQuad ∧
    (parse_term "p").2.1 = "unknown" ∧ unknownPredQuad.predicate = "p" ∧
    parse_line unknownSubjLine = .ok unknownSubjQuad ∧
    unknownSubjQuad.subject_type = "unknown" ∧
    parse_line unknownGraphLine = .ok unknownGraphQuad ∧
    (parse_term "<g").2.1 = "unknown" ∧ unknownGraphQuad.graph = "<g" := by
  refine ⟨by decide, by decide, by decide, by decide, by decide, by decide,
    by decide, by decide⟩

/-- C5 counterexample: a literal body consisting of the two-character
sequence backslash-backslash decodes to two backslashes, not to a single
backslash: the Term Decoder performs no `\\\\` → `\\` un-escaping. -/
theorem double_backslash_not_unescaped_cex :
    parse_term "\"\\\\\"" = ("\\\\", "literal", none) ∧
    ("\\\\" : String) ≠ "\\" := by
  constructor
  · decide
  · decide

theorem replaceSubFuel_succ (pat rep : List Char) :
    ∀ (f : Nat) (cs : List Char), cs.length ≤ f →
      replaceSubFuel pat rep (f + 1) cs = replaceSubFuel pat rep f cs := by
  intro f
  induction f with
  | zero =>
    intro cs h
    cases cs with
    | nil => rfl
    | cons c rest => simp at h
  | succ g ih =>
    intro cs h
    cases cs with
    | nil => rfl
    | cons c rest =>
      simp only [replaceSubFuel]
      have hrest : rest.length ≤ g := by
        simpa using Nat.le_of_succ_le_succ h
      by_cases hm : (pat ≠ [] && pat.isPrefixOf (c :: rest)) = true
      · rw [if_pos hm, if_pos hm]
        congr 1
        exact ih _ (le_trans (by simp [List.length_drop]) hrest)
      · rw [if_neg hm, if_neg hm]
        congr 1
        exact ih _ hrest

theorem replaceSub_cons_nomatch (pat rep : List Char) (c : Char) (rest : List Char)
    (h : (pat ≠ [] && pat.isPrefixOf (c :: rest)) = false) :
    replaceSub pat rep (c :: rest) = c :: replaceSub pat rep rest := by
  simp only [replaceSub, List.length_cons, replaceSubFuel, h]
  simp

/-- A match at the head of the scan replaces the two-character escape and
resumes after it. -/
theorem replaceSub_cons2_match (x : Char) (rep : List Char) (b : List Char) :
    replaceSub ['\\', x] rep ('\\' :: x :: b) = rep ++ replaceSub ['\\', x] rep b := by
  have hm : ((['\\', x] : List Char) ≠ [] &&
      List.isPrefixOf ['\\', x] ('\\' :: x :: b)) = true := by
    simp [List.isPrefixOf]
  simp only [replaceSub, List.length_cons, replaceSubFuel, hm, if_true]
  congr 1
  simpa using replaceSubFuel_succ ['\\', x] rep b.length b (Nat.le_refl _)

/-- A backslash followed by a character that is neither the escape letter nor
another backslash is passed through and the scan resumes after both. -/
theorem replaceSub_cons2_nomatch (x y : Char) (rep : List Char) (v : List Char)
    (hyx : y ≠ x) (hyb : y ≠ '\\') :
    replaceSub ['\\', x] rep ('\\' :: y :: v) =
      '\\' :: y :: replaceSub ['\\', x] rep v := by
  rw [replaceSub_cons_nomatch _ _ _ _ (by simp [List.isPrefixOf, Ne.symm hyx])]
  rw [replaceSub_cons_nomatch _ _ _ _
    (by simp [List.isPrefixOf]; intro hb; exact absurd hb.symm hyb)]

/-- The scan passes a backslash-free span unchanged and continues behind it:
no escape replacement starts inside or at the end of such a span. -/
theorem replaceSub_append_clean (x : Char) (rep : List Char) :
    ∀ (u v : List Char), '\\' ∉ u →
      replaceSub ['\\', x] rep (u ++ v) = u ++ replaceSub ['\\', x] rep v := by
  intro u
  induction u with
  | nil => intro v _; simp
  | cons c u ih =>
    intro v h
    have hc : ('\\' : Char) ≠ c := fun hcc => h (by simp [hcc.symm])
    rw [List.cons_append,
      replaceSub_cons_nomatch _ _ _ _ (by simp [List.isPrefixOf, hc]),
      ih v (fun hm => h (List.mem_cons_of_mem _ hm))]
    rfl

/-- A backslash-free string is a fixed point of one replacement pass. -/
theorem replaceSub_clean (x : Char) (rep : List Char) (u : List Char)
    (h : '\\' ∉ u) : replaceSub ['\\', x] rep u = u := by
  have h2 := replaceSub_append_clean x rep u [] h
  have h3 : replaceSub ['\\', x] rep [] = [] := rfl
  simpa [h3] using h2

/-- C5 amended: the Term Decoder rewrites the literal body by three
sequential global text replacements, in order `\"` → `"`, then `\n` →
newline, then `\t` → tab; whenever one of these escapes is preceded by
backslash-free text it decodes exactly as listed, and a backslash-free body
is left unchanged. There is no backslash-backslash un-escaping pass: a body
consisting solely of backslash-backslash stays two backslashes, a body
backslash-backslash-n decodes to a backslash followed by a newline (the
later `\n` pass consumes the second backslash), and `\uXXXX` unicode
escapes are left verbatim. -/
theorem unescape_exactly_three_sequences :
    (∀ cs : List Char, '\\' ∉ cs → unescape cs = cs) ∧
    (∀ a b : List Char, '\\' ∉ a →
      unescape (a ++ '\\' :: '"' :: b) = a ++ '"' :: unescape b) ∧
    (∀ a b : List Char, '\\' ∉ a →
      unescape (a ++ '\\' :: 'n' :: b) = a ++ '\n' :: unescape b) ∧
    (∀ a b : List Char, '\\' ∉ a →
      unescape (a ++ '\\' :: 't' :: b) = a ++ '\t' :: unescape b) ∧
    parse_term "\"\\\\\"" = ("\\\\", "literal", none) ∧
    parse_term "\"\\\\n\"" = ("\\\n", "literal", none) ∧
    parse_term "\"\\u0041\"" = ("\\u0041", "literal", none) := by
  refine ⟨?_, ?_, ?_, ?_, by decide, by decide, by decide⟩
  · intro cs h
    simp only [unescape, replaceSub_clean _ _ _ h]
  · intro a b ha
    have hq : ('\\' : Char) ∉ a ++ ['"'] := by
      simp only [List.mem_append, List.mem_singleton]
      rintro (hm | hm)
      · exact ha hm
      · exact absurd hm (by decide)
    have h1 : replaceSub ['\\', '"'] ['"'] (a ++ '\\' :: '"' :: b) =
        (a ++ ['"']) ++ replaceSub ['\\', '"'] ['"'] b := by
      rw [replaceSub_append_clean '"' ['"'] a _ ha, replaceSub_cons2_match]
      simp
    simp only [unescape, h1,
      replaceSub_append_clean 'n' ['\n'] (a ++ ['"']) _ hq,
      replaceSub_append_clean 't' ['\t'] (a ++ ['"']) _ hq]
    simp
  · intro a b ha
    have hn : ('\\' : Char) ∉ a ++ ['\n'] := by
      simp only [List.mem_append, List.mem_singleton]
      rintro (hm | hm)
      · exact ha hm
      · exact absurd hm (by decide)
    have h1 : replaceSub ['\\', '"'] ['"'] (a ++ '\\' :: 'n' :: b) =
        a ++ '\\' :: 'n' :: replaceSub ['\\', '"'] ['"'] b := by
      rw [replaceSub_append_clean '"' ['"'] a _ ha,
        replaceSub_cons2_nomatch '"' 'n' ['"'] _ (by decide) (by decide)]
    have h2 : replaceSub ['\\', 'n'] ['\n']
        (a ++ '\\' :: 'n' :: replaceSub ['\\', '"'] ['"'] b) =
        (a ++ ['\n']) ++ replaceSub ['\\', 'n'] ['\n']
          (replaceSub ['\\', '"'] ['"'] b) := by
      rw [replaceSub_append_clean 'n' ['\n'] a _ ha, replaceSub_cons2_match]
      simp
    simp only [unescape, h1, h2,
      replaceSub_append_clean 't' ['\t'] (a ++ ['\n']) _ hn]
    simp
  · intro a b ha
    have h1 : replaceSub ['\\', '"'] ['"'] (a ++ '\\' :: 't' :: b) =
        a ++ '\\' :: 't' :: replaceSub ['\\', '"'] ['"'] b := by
      rw [replaceSub_append_clean '"' ['"'] a _ ha,
        replaceSub_cons2_nomatch '"' 't' ['"'] _ (by decide) (by decide)]
    have h2 : replaceSub ['\\', 'n'] ['\n']
        (a ++ '\\' :: 't' :: replaceSub ['\\', '"'] ['"'] b) =
        a ++ '\\' :: 't' :: replaceSub ['\\', 'n'] ['\n']
          (replaceSub ['\\', '"'] ['"'] b) := by
      rw [replaceSub_append_clean 'n' ['\n'] a _ ha,
        replaceSub_cons2_nomatch 'n' 't' ['\n'] _ (by decide) (by decide)]
    have h3 : replaceSub ['\\', 't'] ['\t']
        (a ++ '\\' :: 't' :: replaceSub ['\\', 'n'] ['\n']
          (replaceSub ['\\', '"'] ['"'] b)) =
        (a ++ ['\t']) ++ replaceSub ['\\', 't'] ['\t']
          (replaceSub ['\\', 'n'] ['\n'] (replaceSub ['\\', '"'] ['"'] b)) := by
      rw [replaceSub_append_clean 't' ['\t'] a _ ha, replaceSub_cons2_match]
      simp
    simp only [unescape, h1, h2, h3, List.append_assoc, List.singleton_append]

/-- C5 witness: the `\"` decoding clause of the amended theorem applied to the
concrete backslash-free context `a` and remainder `b`. -/
theorem unescape_exactly_three_sequences_witness :
    ('\\' ∉ (['a'] : List Char)) ∧
    unescape (['a'] ++ '\\' :: '"' :: ['b']) = ['a'] ++ '"' :: unescape ['b'] :=
  ⟨by decide, unescape_exactly_three_sequences.2.1 ['a'] ['b'] (by decide)⟩

/-- C6 counterexample: the line `<http://s> <http://p> <http://o> <http://g>`
has no trailing `.` terminator at all, yet it parses to a Quad: step 1 of the
tokenizer has no failure path. -/
theorem missing_terminator_still_parses_cex :
    endsWithC '.' (rstripWs noTermLine.toList) = false ∧
    parse_line noTermLine = .ok plainQuad := by
  constructor
  · decide
  · decide

/-- C6 amended: step 1 of the Line Tokenizer never fails; when the line lacks
a trailing terminator the permissive fallback strips nothing and parsing
proceeds, producing the same Quad as the properly terminated line. -/
theorem missing_terminator_tolerated :
    parse_line noTermLine = .ok plainQuad ∧
    parse_line plainLine = .ok plainQuad := by
  constructor
  · decide
  · decide

/-- The concatenation of the groups produced by the grouping loop is the
buffered quads followed by the remaining input. -/
theorem gbsGo_flatten (l : List Quad) :
    ∀ (cs : Option String) (cg : List Quad), (gbsGo cs cg l).flatten = cg ++ l := by
  induction l with
  | nil =>
    intro cs cg
    cases cg <;> simp [gbsGo]
  | cons q rest ih =>
    intro cs cg
    by_cases h : some q.subject = cs
    · simp [gbsGo, h, ih]
    · cases cg <;> simp [gbsGo, h, ih]

/-- Every group produced by the grouping loop is nonempty and has a single
subject, provided the buffered quads all match the current subject. -/
theorem gbsGo_groups (l : List Quad) :
    ∀ (cs : Option String) (cg : List Quad), (∀ q ∈ cg, some q.subject = cs) →
      ∀ g ∈ gbsGo cs cg l, g ≠ [] ∧ ∀ q ∈ g, ∀ q2 ∈ g, q.subject = q2.subject := by
  induction l with
  | nil =>
    intro cs cg hinv g hg
    cases cg with
    | nil => simp [gbsGo] at hg
    | cons a as =>
      simp [gbsGo] at hg
      subst hg
      refine ⟨by simp, ?_⟩
      intro q hq q2 hq2
      exact Option.some.inj ((hinv q hq).trans (hinv q2 hq2).symm)
  | cons q rest ih =>
    intro cs cg hinv g hg
    by_cases h : some q.subject = cs
    · simp only [gbsGo, h, ne_eq, not_true_eq_false, if_neg, ite_false] at hg
      refine ih cs (cg ++ [q]) ?_ g ?_
      · intro q2 hq2
        rcases List.mem_append.mp hq2 with h2 | h2
        · exact hinv q2 h2
        · rcases List.mem_singleton.mp h2 with rfl
          exact h
      · exact hg
    · simp only [gbsGo, h, ne_eq, not_false_eq_true, if_pos, ite_true] at hg
      rcases List.mem_append.mp hg with h2 | h2
      · cases cg with
        | nil => simp at h2
        | cons a as =>
          simp at h2
          subst h2
          refine ⟨by simp, ?_⟩
          intro q1 hq1 q2 hq2
          exact Option.some.inj ((hinv q1 hq1).trans (hinv q2 hq2).symm)
      · exact ih (some q.subject) [q] (by simp) g h2

/-- The groups produced by the grouping loop change subject at every group
boundary; moreover, when the buffer is nonempty the first produced group still
carries the buffered subject. -/
theorem gbsGo_chain (l : List Quad) :
    ∀ (cs : Option String) (cg : List Quad), (∀ q ∈ cg, some q.subject = cs) →
      List.Chain' (fun g g2 => headSubject g ≠ headSubject g2) (gbsGo cs cg l) ∧
      (∀ g, (gbsGo cs cg l).head? = some g → cg ≠ [] → headSubject g = cs) := by
  induction l with
  | nil =>
    intro cs cg hinv
    cases cg with
    | nil => simp [gbsGo]
    | cons a as =>
      refine ⟨by simp [gbsGo], ?_⟩
      intro g hg _
      simp [gbsGo] at hg
      subst hg
      exact hinv a (by simp)
  | cons q rest ih =>
    intro cs cg hinv
    by_cases h : some q.subject = cs
    · have hinv2 : ∀ q2 ∈ cg ++ [q], some q2.subject = cs := by
        intro q2 hq2
        rcases List.mem_append.mp hq2 with h2 | h2
        · exact hinv q2 h2
        · rcases List.mem_singleton.mp h2 with rfl
          exact h
      have hih := ih cs (cg ++ [q]) hinv2
      refine ⟨?_, ?_⟩
      · simpa only [gbsGo, h, ne_eq, not_true_eq_false, ite_false] using hih.1
      · intro g hg _
        simp only [gbsGo, h, ne_eq, not_true_eq_false, ite_false] at hg
        exact hih.2 g hg (by simp)
    · have hih := ih (some q.subject) [q] (by simp)
      cases cg with
      | nil =>
        refine ⟨?_, ?_⟩
        · simpa only [gbsGo, h, ne_eq, not_false_eq_true, ite_true, List.isEmpty_nil,
            List.nil_append] using hih.1
        · intro g _ hne
          exact absurd rfl hne
      | cons a as =>
        have hres : gbsGo cs (a :: as) (q :: rest) =
            (a :: as) :: gbsGo (some q.subject) [q] rest := by
          simp [gbsGo, h]
        refine ⟨?_, ?_⟩
        · rw [hres, List.chain'_cons']
          refine ⟨?_, hih.1⟩
          intro y hy
          have hy2 : headSubject y = some q.subject := by
            apply hih.2 y ?_ (by simp)
            exact Option.mem_def.mp hy
          have ha : headSubject (a :: as) = cs := hinv a (by simp)
          rw [ha, hy2]
          intro heq
          exact h heq.symm
        · intro g hg _
          rw [hres] at hg
          simp only [List.head?_cons, Option.some.injEq] at hg
          subst hg
          exact hinv a (by simp)

/-- C7: for every finite input, the Subject Grouper emits nonempty lists whose
concatenation is the input, each list has a single subject, consecutive lists
have different subjects (a new list starts exactly when the subject changes),
and the subject sequence `[A, A, B, B, B, A]` yields exactly three groups of
sizes `[2, 3, 1]`. -/
theorem group_by_subject_correct :
    (∀ l : List Quad, (group_by_subject l).flatten = l) ∧
    (∀ l : List Quad, ∀ g ∈ group_by_subject l,
      g ≠ [] ∧ ∀ q ∈ g, ∀ q2 ∈ g, q.subject = q2.subject) ∧
    (∀ l : List Quad,
      List.Chain' (fun g g2 => headSubject g ≠ headSubject g2) (group_by_subject l)) ∧
    group_by_subject sixQuads =
      [[subjQuad "A" "1", subjQuad "A" "2"],
       [subjQuad "B" "3", subjQuad "B" "4", subjQuad "B" "5"],
       [subjQuad "A" "6"]] ∧
    (group_by_subject sixQuads).map List.length = [2, 3, 1] := by
  refine ⟨?_, ?_, ?_, by decide, by decide⟩
  · intro l
    simpa using gbsGo_flatten l none []
  · intro l
    exact gbsGo_groups l none [] (by simp)
  · intro l
    exact (gbsGo_chain l none [] (by simp)).1

/-- C7 witness: the general theorem applied to the concrete `sixQuads` input
and its first emitted group. -/
theorem group_by_subject_correct_witness :
    [subjQuad "A" "1", subjQuad "A" "2"] ∈ group_by_subject sixQuads ∧
    ([subjQuad "A" "1", subjQuad "A" "2"] ≠ [] ∧
      ∀ q ∈ [subjQuad "A" "1", subjQuad "A" "2"],
        ∀ q2 ∈ [subjQuad "A" "1", subjQuad "A" "2"], q.subject = q2.subject) :=
  ⟨by decide, group_by_subject_correct.2.1 sixQuads _ (by decide)⟩

/-- One stream step only ever adds to the counters, and neither the counter
deltas nor the yielded quad depend on the counters already accumulated. -/
theorem streamStep_add (ad : Option (List String)) (st : Stats) (l : String) :
    streamStep ad st l =
      (statsAdd st (streamStep ad initStats l).1, (streamStep ad initStats l).2) := by
  cases h : parse_line l with
  | skip => cases st; simp [streamStep, h, bumpLines, statsAdd, initStats]
  | err => cases st; simp [streamStep, h, bumpLines, bumpErrors, statsAdd, initStats]
  | ok q =>
    simp only [streamStep, h]
    split_ifs <;> cases st <;>
      simp [bumpLines, bumpQuads, bumpFiltered, statsAdd, initStats]

theorem statsAdd_init_left (s : Stats) : statsAdd initStats s = s := by
  cases s
  simp [statsAdd, initStats]

theorem statsAdd_assoc (a b c : Stats) :
    statsAdd (statsAdd a b) c = statsAdd a (statsAdd b c) := by
  cases a; cases b; cases c
  simp [statsAdd, Nat.add_assoc]

/-- Streaming from already-accumulated counters `st` yields the same quads as
streaming from fresh counters, and the final counters are `st` plus the
fresh-run counters. -/
theorem stream_file_add (ls : List String) :
    ∀ (ad : Option (List String)) (st : Stats),
      stream_file ad st ls =
        (statsAdd st (stream_file ad initStats ls).1, (stream_file ad initStats ls).2) := by
  induction ls with
  | nil =>
    intro ad st
    cases st; simp [stream_file, statsAdd, initStats]
  | cons l ls ih =>
    intro ad st
    simp only [stream_file]
    rw [streamStep_add ad st l, ih ad (statsAdd st (streamStep ad initStats l).1),
      ih ad (streamStep ad initStats l).1]
    simp [statsAdd_assoc]

/-- C8: streaming is a pure function of the line sequence and the allow-list:
re-parsing the same content from the start twice necessarily yields identical
quad sequences and identical final counters. Stronger, the yielded quad
sequence does not depend on the counters already accumulated on the parser
instance, and the counters accrue additively from any starting snapshot, so
the per-run counter deltas of the two runs also coincide. -/
theorem stream_file_two_runs_agree :
    ∀ (ad : Option (List String)) (st : Stats) (ls : List String),
      (stream_file ad st ls).2 = (stream_file ad initStats ls).2 ∧
      (stream_file ad st ls).1 = statsAdd st (stream_file ad initStats ls).1 := by
  intro ad st ls
  rw [stream_file_add ls ad st]
  exact ⟨rfl, rfl⟩

/-- With an empty allow-list the truthiness test fails, so one step behaves
exactly as with no allow-list. -/
theorem streamStep_empty_allowlist (st : Stats) (l : String) :
    streamStep (some ([] : List String)) st l = streamStep none st l := by
  cases h : parse_line l <;> simp [streamStep, h, adTruthy]

theorem stream_file_none_df (ls : List String) :
    ∀ st : Stats, (stream_file none st ls).1.domain_filtered = st.domain_filtered := by
  induction ls with
  | nil => intro st; simp [stream_file]
  | cons l ls ih =>
    intro st
    simp only [stream_file]
    rw [ih]
    cases h : parse_line l <;>
      simp [streamStep, h, adTruthy, bumpLines, bumpErrors, bumpQuads]

theorem stream_file_none_quads (ls : List String) :
    ∀ st : Stats, (stream_file none st ls).2 = ls.filterMap parsedQuad := by
  induction ls with
  | nil => intro st; simp [stream_file]
  | cons l ls ih =>
    intro st
    simp only [stream_file, List.filterMap_cons]
    rw [ih]
    cases h : parse_line l <;> simp [streamStep, h, adTruthy, parsedQuad]

/-- C9: constructing the parser with an empty allow-list set behaves exactly
like constructing it with no allow-list: the two streams are equal, every
successfully parsed quad is yielded, and `domain_filtered` never moves (in
particular it is `0` for a fresh parser). -/
theorem empty_allowlist_no_filtering :
    ∀ (st : Stats) (ls : List String),
      stream_file (some ([] : List String)) st ls = stream_file none st ls ∧
      (stream_file (some ([] : List String)) st ls).2 = ls.filterMap parsedQuad ∧
      (stream_file (some ([] : List String)) st ls).1.domain_filtered =
        st.domain_filtered ∧
      (stream_file (some ([] : List String)) initStats ls).1.domain_filtered = 0 := by
  have key : ∀ (st : Stats) (ls : List String),
      stream_file (some ([] : List String)) st ls = stream_file none st ls := by
    intro st ls
    induction ls generalizing st with
    | nil => rfl
    | cons l ls ih =>
      simp only [stream_file, streamStep_empty_allowlist]
      rw [ih]
  intro st ls
  refine ⟨key st ls, ?_, ?_, ?_⟩
  · rw [key st ls]
    exact stream_file_none_quads ls st
  · rw [key st ls]
    exact stream_file_none_df ls st
  · rw [key initStats ls]
    exact stream_file_none_df ls initStats

/-- C1 counterexample: with allow-list `{"toronto.ca"}`, the quad of the line
`<http://s> <http://p> <http://o> <http://www.www.toronto.ca/> .` is yielded
and `domain_filtered` stays `0`, although its derived domain
`www.www.toronto.ca` is not in the allow-list either as-is or with one
leading `www.` stripped (which gives `www.toronto.ca`): the code removes every
occurrence of `www.`, not a leading one. -/
theorem domain_filter_leading_www_cex :
    parse_line doubleWwwLine = .ok doubleWwwQuad ∧
    stream_file (some ["toronto.ca"]) initStats [doubleWwwLine] =
      (⟨1, 1, 0, 0⟩, [doubleWwwQuad]) ∧
    doubleWwwQuad.domain ∉ (["toronto.ca"] : List String) ∧
    specStripLeadingWww doubleWwwQuad.domain ∉ (["toronto.ca"] : List String) := by
  refine ⟨by decide, by decide, by decide, by decide⟩

/-- C1 amended: with a nonempty allow-list, a successfully parsed quad is
yielded iff its derived domain — checked as-is and with every occurrence of
the substring `www.` removed — is in the allow-list; a kept quad increments
`quads_parsed` by exactly 1, a dropped quad increments `domain_filtered` by
exactly 1 and not `quads_parsed`. With allow-list `{"toronto.ca"}` the quad
with graph authority `www.toronto.ca` is kept and the one with authority
`example.com` is dropped, with the stated counter changes. -/
theorem domain_filter_www_removed_everywhere :
    ∀ (ad : List String) (st : Stats) (line : String) (q : Quad),
      ad ≠ [] → parse_line line = .ok q →
      (((streamStep (some ad) st line).2 = some q) ↔
        (q.domain ∈ ad ∨ wwwRemoved q.domain ∈ ad)) ∧
      ((q.domain ∈ ad ∨ wwwRemoved q.domain ∈ ad) →
        (streamStep (some ad) st line).1 = bumpQuads (bumpLines st)) ∧
      (¬(q.domain ∈ ad ∨ wwwRemoved q.domain ∈ ad) →
        (streamStep (some ad) st line).1 = bumpFiltered (bumpLines st)) ∧
      stream_file (some ["toronto.ca"]) initStats [torontoLine, exampleComLine] =
        (⟨2, 1, 0, 1⟩, [torontoQuad]) := by
  intro ad st line q had hpl
  have hT : adTruthy (some ad) = true := by
    simp [adTruthy, List.isEmpty_eq_false, had]
  refine ⟨?_, ?_, ?_, by decide⟩ <;>
    by_cases h1 : q.domain ∈ ad <;>
    by_cases h2 : wwwRemoved q.domain ∈ ad <;>
    simp [streamStep, hpl, hT, h1, h2]

/-- C1 witness: the amended theorem applied to the kept `www.toronto.ca` line
with allow-list `{"toronto.ca"}`, hypotheses discharged concretely. -/
theorem domain_filter_www_removed_everywhere_witness :
    (["toronto.ca"] : List String) ≠ [] ∧
    parse_line torontoLine = .ok torontoQuad ∧
    (((streamStep (some ["toronto.ca"]) initStats torontoLine).2 = some torontoQuad) ↔
      (torontoQuad.domain ∈ (["toronto.ca"] : List String) ∨
        wwwRemoved torontoQuad.domain ∈ (["toronto.ca"] : List String))) :=
  ⟨by decide, by decide,
    (domain_filter_www_removed_everywhere ["toronto.ca"] initStats torontoLine torontoQuad
      (by decide) (by decide)).1⟩

theorem rfindQuote_eq_none : ∀ l : List Char, '"' ∉ l → rfindQuote l = none := by
  intro l
  induction l with
  | nil => intro _; rfl
  | cons c rest ih =>
    intro h
    have hc : ¬(c = '"') := fun hc => h (by simp [hc])
    simp only [rfindQuote, ih (fun hm => h (List.mem_cons_of_mem _ hm))]
    simp [hc]

/-- C10: a token that (after stripping) begins with a double quote and
contains no second double quote is not a decode failure: the Term Decoder
returns kind `literal`, value the entire remainder after the opening quote
with the escape replacements applied, and no datatype and no language. -/
theorem unterminated_literal_decodes (t : String) (rest : List Char)
    (h1 : stripPy t.toList = '"' :: rest) (h2 : '"' ∉ rest) :
    parse_term t = (String.mk (unescape rest), "literal", none) := by
  have hq : rfindQuote ('"' :: rest) = some 0 := by
    simp [rfindQuote, rfindQuote_eq_none rest h2]
  have hdrop : List.drop (rest.length + 1) rest = [] :=
    List.drop_eq_nil_of_le (Nat.le_succ _)
  simp only [parse_term, parse_term_core, h1, hq]
  simp +decide [startsWithC, startsWith2, startsWith3, hdrop, List.take_length]

/-- C10 witness: the theorem applied to the concrete unterminated literal
token `"abc`. -/
theorem unterminated_literal_decodes_witness :
    stripPy ("\"abc" : String).toList = '"' :: ['a', 'b', 'c'] ∧
    ('"' ∉ (['a', 'b', 'c'] : List Char)) ∧
    parse_term "\"abc" = (String.mk (unescape ['a', 'b', 'c']), "literal", none) :=
  ⟨by decide, by decide,
    unterminated_literal_decodes "\"abc" ['a', 'b', 'c'] (by decide) (by decide)⟩

end NQuads
